import Mathlib

/-!
Verification of the `matrix<T>` class template (file `matrix.hpp` of the
CSE701 matrix repository) against its natural-language specification.

The C++ class stores a `rows × cols` matrix of elements of a generic type
`T` in a heap buffer of `rows * cols` elements in row-major order, with
`size_t` fields `rows` and `cols`, a raw pointer `elements` and an owning
smart pointer `smart` that both reference the buffer (or are null in the
post-move state).  All `size_t` arithmetic is unsigned arithmetic modulo
`2 ^ w`, where `w` is the bit width of `size_t`; the embedding keeps `w`
as an explicit parameter and reduces every `size_t` product or index
computation with `sz w`.

Design of the embedding:
* a matrix is a `Mat T`: the two size fields and an optional buffer,
  `none` standing for the null pointer pair of a moved-from object;
* fallible constructors and operators return `Except MatrixError`,
  mirroring the five exception classes of the source;
* reading uninitialized or out-of-range memory is undefined behavior in
  the source; the embedding returns `default` in those cases, and no
  theorem below depends on the value of such a read.
-/

/-- Truncation to the unsigned machine word width `w`, modelling C++
`size_t` arithmetic: every `size_t` product or sum is reduced modulo
`2 ^ w`. -/
def sz (w n : Nat) : Nat := n % 2 ^ w

/-- Exception kinds of the matrix class: one constructor per exception
class declared in `matrix<T>` (`zero_size`, `initializer_wrong_size`,
`incompatible_sizes_add`, `incompatible_sizes_multiply`,
`index_out_of_range`). -/
inductive MatrixError : Type where
  | zero_size
  | initializer_wrong_size
  | incompatible_sizes_add
  | incompatible_sizes_multiply
  | index_out_of_range
deriving DecidableEq

/-- Shallow embedding of the state of a `matrix<T>` object: the `rows`
and `cols` fields and the owned element buffer in row-major flattened
form.  `buf = none` models `elements == nullptr` and `smart == nullptr`
(the documented post-move state); `buf = some l` models a live owned
allocation holding the elements `l`. -/
structure Mat (T : Type) where
  rows : Nat
  cols : Nat
  buf : Option (List T)
deriving DecidableEq

/-- Unchecked element read, `operator()(row, col) const`: returns
`elements[(cols * row) + col]`, the index computed in `size_t`
arithmetic, with no bounds validation.  An out-of-range or null-pointer
read is undefined behavior in the source and is modelled as `default`. -/
def Mat.el {T : Type} [Inhabited T] (m : Mat T) (w row col : Nat) : T :=
  (m.buf.getD []).getD (sz w (m.cols * row + col)) default

/-- Unchecked element write through `operator()(row, col)`:
`elements[(cols * row) + col] = v`, the index computed in `size_t`
arithmetic.  An out-of-range write is undefined behavior in the source;
`List.set` ignores it. -/
def Mat.setEl {T : Type} (m : Mat T) (w row col : Nat) (v : T) : Mat T :=
  { m with buf := some ((m.buf.getD []).set (sz w (m.cols * row + col)) v) }

/-- Checked element access `at(row, col) const`: validates
`row < rows and col < cols` and throws `index_out_of_range` otherwise,
then reads `elements[(cols * row) + col]`. -/
def Mat.at' {T : Type} [Inhabited T] (m : Mat T) (w row col : Nat) :
    Except MatrixError T :=
  if m.rows ≤ row ∨ m.cols ≤ col then .error .index_out_of_range
  else .ok (m.el w row col)

/-- Constructor `matrix(input_rows, input_cols)`: throws `zero_size` when
either count is zero, otherwise allocates `new T[rows * cols]` (the
product computed in `size_t` arithmetic) and leaves the elements
uninitialized; the indeterminate contents are modelled as `default`. -/
def matrixUninit {T : Type} [Inhabited T] (w rows cols : Nat) :
    Except MatrixError (Mat T) :=
  if rows = 0 ∨ cols = 0 then .error .zero_size
  else .ok ⟨rows, cols, some (List.replicate (sz w (rows * cols)) (default : T))⟩

/-- Constructor `matrix(input_rows, input_cols, input_init)`: throws
`zero_size` when either count is zero, otherwise allocates the buffer and
runs `for (i = 0; i < rows * cols; i++) elements[i] = input_init`, the
bound computed in `size_t` arithmetic. -/
def matrixFilled {T : Type} [Inhabited T] (w rows cols : Nat) (v : T) :
    Except MatrixError (Mat T) :=
  if rows = 0 ∨ cols = 0 then .error .zero_size
  else .ok ⟨rows, cols, some ((List.range (sz w (rows * cols))).foldl
    (fun b i => b.set i v) (List.replicate (sz w (rows * cols)) (default : T)))⟩

/-- Constructor `matrix(input_diagonal)` from a vector: sets
`rows = cols = input_diagonal.size()`, throws `zero_size` when that size
is zero, otherwise allocates the buffer and writes
`elements[(cols * i) + j] = (i == j ? input_diagonal[i] : 0)` over the
double loop `i < rows`, `j < cols`.  The `initializer_list` overload
delegates to this one. -/
def matrixDiagonal {T : Type} [Inhabited T] [Zero T] (w : Nat) (d : List T) :
    Except MatrixError (Mat T) :=
  if d.length = 0 then .error .zero_size
  else .ok ((List.range d.length).foldl (fun c i =>
      (List.range d.length).foldl (fun c j =>
        c.setEl w i j (if i = j then d.getD i default else 0)) c)
    ⟨d.length, d.length, some (List.replicate (sz w (d.length * d.length)) (default : T))⟩)

/-- Constructor `matrix(input_rows, input_cols, input_elements)` from a
flattened vector: throws `zero_size` when either count is zero, throws
`initializer_wrong_size` when `input_elements.size() != rows * cols`
(the product computed in `size_t` arithmetic), otherwise allocates the
buffer and copies `elements[i] = input_elements[i]` for
`i < rows * cols`.  The `initializer_list` overload delegates to this
one. -/
def matrixFromElements {T : Type} [Inhabited T] (w rows cols : Nat)
    (els : List T) : Except MatrixError (Mat T) :=
  if rows = 0 ∨ cols = 0 then .error .zero_size
  else if els.length ≠ sz w (rows * cols) then .error .initializer_wrong_size
  else .ok ⟨rows, cols, some ((List.range (sz w (rows * cols))).foldl
    (fun b i => b.set i (els.getD i default))
    (List.replicate (sz w (rows * cols)) (default : T)))⟩

/-- Move constructor `matrix(matrix<T> &&m)`: the new matrix copies
`m.rows` and `m.cols` and takes over the buffer via
`smart = move(m.smart)`; the source is then left with
`m.rows = 0`, `m.cols = 0`, `m.elements = nullptr` and a null smart
pointer.  Returns (new matrix, source after the move). -/
def matrixMoveCtor {T : Type} (m : Mat T) : Mat T × Mat T :=
  ({ rows := m.rows, cols := m.cols, buf := m.buf },
   { m with rows := 0, cols := 0, buf := none })

/-- Move assignment `operator=(matrix<T> &&m)`: the target takes `m`'s
sizes and buffer (its own previous buffer is released by the smart
pointer assignment), and the source is emptied exactly as in the move
constructor.  Returns (target after assignment, source after the move). -/
def matrixMoveAssign {T : Type} (target m : Mat T) : Mat T × Mat T :=
  ({ target with rows := m.rows, cols := m.cols, buf := m.buf },
   { m with rows := 0, cols := 0, buf := none })

/-- Number of heap buffers owned by this matrix object: 1 when its smart
pointer is non-null, 0 otherwise.  Destroying the object frees exactly
this many buffers, so the buffers freed when several objects are
destroyed is the sum of their counts. -/
def Mat.allocCount {T : Type} (m : Mat T) : Nat :=
  match m.buf with
  | some _ => 1
  | none => 0

/-- Binary `operator+`: throws `incompatible_sizes_add` unless the shapes
agree, otherwise builds `matrix c(a.rows, a.cols)` (which may itself
throw `zero_size`) and writes `c(i, j) = a(i, j) + b(i, j)` over
`i < a.rows`, `j < a.cols`. -/
def matAdd {T : Type} [Inhabited T] [Add T] (w : Nat) (a b : Mat T) :
    Except MatrixError (Mat T) :=
  if a.rows ≠ b.rows ∨ a.cols ≠ b.cols then .error .incompatible_sizes_add
  else (matrixUninit w a.rows a.cols).map (fun c =>
    (List.range a.rows).foldl (fun c i =>
      (List.range a.cols).foldl (fun c j =>
        c.setEl w i j (a.el w i j + b.el w i j)) c) c)

/-- Binary `operator-`: throws `incompatible_sizes_add` (the same kind as
addition) unless the shapes agree, otherwise builds
`matrix c(a.rows, a.cols)` and writes `c(i, j) = a(i, j) - b(i, j)`. -/
def matSub {T : Type} [Inhabited T] [Sub T] (w : Nat) (a b : Mat T) :
    Except MatrixError (Mat T) :=
  if a.rows ≠ b.rows ∨ a.cols ≠ b.cols then .error .incompatible_sizes_add
  else (matrixUninit w a.rows a.cols).map (fun c =>
    (List.range a.rows).foldl (fun c i =>
      (List.range a.cols).foldl (fun c j =>
        c.setEl w i j (a.el w i j - b.el w i j)) c) c)

/-- Unary `operator-`: has no precondition check of its own; it builds
`matrix c(m.rows, m.cols)` (which throws `zero_size` on an empty
operand) and writes `c(i, j) = -m(i, j)`. -/
def matNeg {T : Type} [Inhabited T] [Neg T] (w : Nat) (m : Mat T) :
    Except MatrixError (Mat T) :=
  (matrixUninit w m.rows m.cols).map (fun c =>
    (List.range m.rows).foldl (fun c i =>
      (List.range m.cols).foldl (fun c j =>
        c.setEl w i j (-(m.el w i j))) c) c)

/-- Binary `operator*`: throws `incompatible_sizes_multiply` unless
`a.cols == b.rows`, otherwise builds `matrix c(a.rows, b.cols)` and for
each `i < a.rows`, `j < b.cols` runs `c(i, j) = 0` followed by
`c(i, j) += a(i, k) * b(k, j)` for `k < a.cols`, the accumulator
initialized from the integer literal 0 converted to `T`. -/
def matMul {T : Type} [Inhabited T] [Zero T] [Add T] [Mul T] (w : Nat)
    (a b : Mat T) : Except MatrixError (Mat T) :=
  if a.cols ≠ b.rows then .error .incompatible_sizes_multiply
  else (matrixUninit w a.rows b.cols).map (fun c =>
    (List.range a.rows).foldl (fun c i =>
      (List.range b.cols).foldl (fun c j =>
        (List.range a.cols).foldl (fun c k =>
          c.setEl w i j (c.el w i j + a.el w i k * b.el w k j))
          (c.setEl w i j 0)) c) c)

/-- Static member initializer `int matrix<T>::output_width{5}`: the
default printing width shared by all matrices of element type `T` until
`set_output_width` changes it. -/
def output_width_default : Int := 5

/-- Effect of `std::setw(width)` on the next stream insertion: the
rendered text is padded on the left with spaces up to `width`
characters.  The stream text is modelled as a `List Char`. -/
def setwL (width : Int) (s : List Char) : List Char :=
  List.replicate (width - s.length).toNat ' ' ++ s

/-- Stream output `operator<<`: a matrix with `rows == 0 and cols == 0`
prints the marker `()` and a newline; otherwise each row `i` prints
`"( "`, then `setw(output_width) << m(i, j) << ' '` for every
`j < cols`, then `")\n"`, and one extra newline follows the last row.
`rend` models the element type's own stream insertion. -/
def matrixPrint {T : Type} [Inhabited T] (w : Nat) (width : Int)
    (rend : T → List Char) (m : Mat T) : List Char :=
  if m.rows = 0 ∧ m.cols = 0 then "()\n".toList
  else ((List.range m.rows).foldl (fun acc i =>
      ((List.range m.cols).foldl (fun acc j =>
        acc ++ setwL width (rend (m.el w i j)) ++ [' ']) (acc ++ "( ".toList))
      ++ ")\n".toList) []) ++ "\n".toList

/-! ### Specification-side definitions

The following definitions are not translations of the source; they follow
the wording of the specification and are used only on the right-hand side
of the refinement theorems below. -/

/-- Modelled from the spec: a `rows × cols` matrix whose entry at logical
position `(i, j)` is `f i j`, stored at flattened offset `i * cols + j`
of a buffer of exactly `rows * cols` elements. -/
def mkDense {T : Type} (rows cols : Nat) (f : Nat → Nat → T) : Mat T :=
  ⟨rows, cols, some ((List.range (rows * cols)).map (fun p => f (p / cols) (p % cols)))⟩

/-- Modelled from the spec: a piece of text right-justified to the
current output-width setting (left-padded with spaces when shorter than
the width, unchanged otherwise). -/
def rightJustify (width : Int) (s : List Char) : List Char :=
  if (s.length : Int) < width then
    List.replicate (width - s.length).toNat ' ' ++ s
  else s

/-- Modelled from the spec: items separated by a separator (the separator
appears between consecutive items only). -/
def sepBy (sep : List Char) : List (List Char) → List Char
  | [] => []
  | [r] => r
  | r :: rs => r ++ sep ++ sepBy sep rs

/-- Modelled from the spec: the rendering of row `i` of a matrix — the
row enclosed in parentheses with every element right-justified to the
output-width setting and followed by a space. -/
def specRow {T : Type} [Inhabited T] (w : Nat) (width : Int)
    (rend : T → List Char) (m : Mat T) (i : Nat) : List Char :=
  "( ".toList
  ++ ((List.range m.cols).map (fun j => rightJustify width (rend (m.el w i j)) ++ [' '])).flatten
  ++ ")".toList

/-- Modelled from the spec: the full textual form of a matrix — each row
parenthesized, rows separated by newlines, one trailing blank line after
the full matrix; a matrix with zero rows and zero columns renders as the
literal empty-parentheses marker. -/
def matrixPrintSpec {T : Type} [Inhabited T] (w : Nat) (width : Int)
    (rend : T → List Char) (m : Mat T) : List Char :=
  if m.rows = 0 ∧ m.cols = 0 then "()\n".toList
  else sepBy "\n".toList ((List.range m.rows).map (specRow w width rend m))
    ++ "\n\n".toList

/-! ### Proof-side buffer characterizations

Named forms of the write loops of the source, used to state the loop
lemmas; each is definitionally equal to the corresponding loop above. -/

/-- Ascending run of buffer writes: `b.set (base + j) (g j)` for
`j = 0, …, n-1`, the shape of one row of the double initialization loops
of the source (with `base = cols * i`). -/
def setRun {T : Type} (base : Nat) (g : Nat → T) (n : Nat) (b : List T) : List T :=
  (List.range n).foldl (fun b j => b.set (base + j) (g j)) b

/-- Row-major double write loop of the source (with the `size_t` index
truncation already discharged): `b.set (C * i + j) (f i j)` over
`i < R`, `j < C`. -/
def fillBuf {T : Type} (R C : Nat) (f : Nat → Nat → T) (b : List T) : List T :=
  (List.range R).foldl (fun b i =>
    (List.range C).foldl (fun b j => b.set (C * i + j) (f i j)) b) b

/-! ### Loop lemmas -/

theorem setRun_succ {T : Type} (base : Nat) (g : Nat → T) (n : Nat) (b : List T) :
    setRun base g (n + 1) b = (setRun base g n b).set (base + n) (g n) := by
  unfold setRun
  rw [List.range_succ, List.foldl_append]
  rfl

theorem setRun_length {T : Type} (base : Nat) (g : Nat → T) :
    ∀ (n : Nat) (b : List T), (setRun base g n b).length = b.length := by
  intro n
  induction n with
  | zero => intro b; rfl
  | succ n ih => intro b; rw [setRun_succ, List.length_set, ih]

theorem setRun_getElem?_lo {T : Type} {base q : Nat} (g : Nat → T) (hq : q < base) :
    ∀ (n : Nat) (b : List T), (setRun base g n b)[q]? = b[q]? := by
  intro n
  induction n with
  | zero => intro b; rfl
  | succ n ih =>
    intro b
    rw [setRun_succ, List.getElem?_set_ne (by omega), ih]

theorem setRun_getElem?_hi {T : Type} {base q : Nat} (g : Nat → T) :
    ∀ (n : Nat) (b : List T), base + n ≤ q → (setRun base g n b)[q]? = b[q]? := by
  intro n
  induction n with
  | zero => intro b _; rfl
  | succ n ih =>
    intro b hq
    rw [setRun_succ, List.getElem?_set_ne (by omega), ih b (by omega)]

theorem setRun_getElem?_hit {T : Type} {base : Nat} (g : Nat → T) :
    ∀ (n : Nat) (b : List T) (j : Nat), j < n → base + j < b.length →
      (setRun base g n b)[base + j]? = some (g j) := by
  intro n
  induction n with
  | zero => intro b j hj _; omega
  | succ n ih =>
    intro b j hj hlen
    rw [setRun_succ]
    by_cases hjn : j = n
    · subst hjn
      exact List.getElem?_set_self (by rw [setRun_length]; exact hlen)
    · rw [List.getElem?_set_ne (by omega)]
      exact ih b j (by omega) hlen

theorem fillBuf_succ {T : Type} (R C : Nat) (f : Nat → Nat → T) (b : List T) :
    fillBuf (R + 1) C f b = setRun (C * R) (f R) C (fillBuf R C f b) := by
  unfold fillBuf
  rw [List.range_succ, List.foldl_append]
  rfl

theorem fillBuf_length {T : Type} (C : Nat) (f : Nat → Nat → T) :
    ∀ (R : Nat) (b : List T), (fillBuf R C f b).length = b.length := by
  intro R
  induction R with
  | zero => intro b; rfl
  | succ R ih => intro b; rw [fillBuf_succ, setRun_length, ih]

theorem mul_pos_bound {i R j C : Nat} (hi : i < R) (hj : j < C) :
    C * i + j < C * R := by
  calc C * i + j < C * i + C := Nat.add_lt_add_left hj _
  _ = C * (i + 1) := (Nat.mul_succ C i).symm
  _ ≤ C * R := Nat.mul_le_mul (Nat.le_refl C) hi

theorem fillBuf_getElem?_hit {T : Type} {C : Nat} (f : Nat → Nat → T) :
    ∀ (R : Nat) (b : List T) (i j : Nat), i < R → j < C → C * i + j < b.length →
      (fillBuf R C f b)[C * i + j]? = some (f i j) := by
  intro R
  induction R with
  | zero => intro b i j hi _ _; omega
  | succ R ih =>
    intro b i j hi hj hlen
    rw [fillBuf_succ]
    by_cases hiR : i = R
    · subst hiR
      exact setRun_getElem?_hit (f i) C (fillBuf i C f b) j hj
        (by rw [fillBuf_length]; exact hlen)
    · rw [setRun_getElem?_lo (f R) (mul_pos_bound (by omega) hj)]
      exact ih b i j (by omega) hj hlen

theorem fillBuf_eq_map {T : Type} {R C : Nat} (f : Nat → Nat → T) (b : List T)
    (hC : 0 < C) (hb : b.length = R * C) :
    fillBuf R C f b = (List.range (R * C)).map (fun p => f (p / C) (p % C)) := by
  apply List.ext_getElem?
  intro q
  by_cases hq : q < R * C
  · have hj : q % C < C := Nat.mod_lt _ hC
    have hi : q / C < R := (Nat.div_lt_iff_lt_mul hC).mpr hq
    have h1 := fillBuf_getElem?_hit f R b (q / C) (q % C) hi hj
      (by rw [hb, Nat.div_add_mod]; exact hq)
    rw [Nat.div_add_mod] at h1
    rw [h1, List.getElem?_map, List.getElem?_range hq]
    rfl
  · rw [List.getElem?_eq_none (by rw [fillBuf_length, hb]; omega),
      List.getElem?_eq_none (by rw [List.length_map, List.length_range]; omega)]

theorem flatRun_eq_setRun {T : Type} (g : Nat → T) (n : Nat) (b : List T) :
    (List.range n).foldl (fun b i => b.set i (g i)) b = setRun 0 g n b := by
  unfold setRun
  apply List.foldl_ext
  intro b' i _
  rw [Nat.zero_add]

theorem flatRun_eq_map {T : Type} (g : Nat → T) (n : Nat) (b : List T)
    (hb : b.length = n) :
    (List.range n).foldl (fun b i => b.set i (g i)) b = (List.range n).map g := by
  rw [flatRun_eq_setRun]
  apply List.ext_getElem?
  intro q
  by_cases hq : q < n
  · have h1 : (setRun 0 g n b)[0 + q]? = some (g q) :=
      setRun_getElem?_hit g n b q hq (by omega)
    rw [Nat.zero_add] at h1
    rw [h1, List.getElem?_map, List.getElem?_range hq]
    rfl
  · rw [setRun_getElem?_hi g n b (by omega),
      List.getElem?_eq_none (by omega),
      List.getElem?_eq_none (by rw [List.length_map, List.length_range]; omega)]

theorem map_getD_range {T : Type} [Inhabited T] (els : List T) (n : Nat)
    (h : els.length = n) :
    (List.range n).map (fun i => els.getD i default) = els := by
  apply List.ext_getElem?
  intro q
  by_cases hq : q < n
  · rw [List.getElem?_map, List.getElem?_range hq]
    have hq' : q < els.length := by omega
    rw [List.getElem?_eq_getElem hq']
    simp [List.getD_eq_getElem?_getD, List.getElem?_eq_getElem hq']
  · rw [List.getElem?_eq_none (by rw [List.length_map, List.length_range]; omega),
      List.getElem?_eq_none (by omega)]

theorem getD_set_self {T : Type} [Inhabited T] (b : List T) (q : Nat) (x : T)
    (hq : q < b.length) : (b.set q x).getD q default = x := by
  rw [List.getD_eq_getElem?_getD, List.getElem?_set_self hq]
  rfl

theorem setAccum {T : Type} [Inhabited T] [Add T] (q : Nat) (h : Nat → T) (z : T) :
    ∀ (n : Nat) (b : List T), q < b.length →
      (List.range n).foldl (fun b k => b.set q (b.getD q default + h k)) (b.set q z)
      = b.set q ((List.range n).foldl (fun acc k => acc + h k) z) := by
  intro n
  induction n with
  | zero => intro b _; rfl
  | succ n ih =>
    intro b hq
    rw [List.range_succ, List.foldl_append, List.foldl_append, ih b hq]
    simp only [List.foldl_cons, List.foldl_nil]
    rw [getD_set_self b q _ hq, List.set_set]

theorem foldl_ext_inv {α β : Type _} (P : β → Prop) (f g : β → α → β) :
    ∀ (l : List α), (∀ b x, x ∈ l → P b → f b x = g b x) →
      (∀ b x, x ∈ l → P b → P (f b x)) →
      ∀ b, P b → l.foldl f b = l.foldl g b := by
  intro l
  induction l with
  | nil => intro _ _ b _; rfl
  | cons x xs ih =>
    intro hfg hP b hb
    rw [List.foldl_cons, List.foldl_cons,
      ← hfg b x (List.mem_cons_self x xs) hb]
    exact ih (fun b y hy hb' => hfg b y (List.mem_cons_of_mem x hy) hb')
      (fun b y hy hb' => hP b y (List.mem_cons_of_mem x hy) hb')
      (f b x) (hP b x (List.mem_cons_self x xs) hb)

theorem foldl_add_eq_sum {T : Type} [AddCommMonoid T] (h : Nat → T) :
    ∀ (n : Nat), (List.range n).foldl (fun acc k => acc + h k) 0
      = ∑ k ∈ Finset.range n, h k := by
  intro n
  induction n with
  | zero => rfl
  | succ n ih =>
    rw [List.range_succ, List.foldl_append, Finset.sum_range_succ, ih]
    rfl

theorem mkDense_el {T : Type} [Inhabited T] (w R C : Nat) (f : Nat → Nat → T)
    {i j : Nat} (hsz : R * C ≤ 2 ^ w) (hi : i < R) (hj : j < C) :
    (mkDense R C f).el w i j = f i j := by
  have hC : 0 < C := by omega
  have hpos : C * i + j < R * C := by
    rw [Nat.mul_comm R C]; exact mul_pos_bound hi hj
  have hw : sz w (C * i + j) = C * i + j := Nat.mod_eq_of_lt (by omega)
  unfold mkDense Mat.el
  simp only [Option.getD_some, hw]
  rw [List.getD_eq_getElem?_getD, List.getElem?_map, List.getElem?_range hpos]
  simp only [Option.map_some', Option.getD_some]
  rw [Nat.mul_add_div hC, Nat.div_eq_of_lt hj, Nat.add_zero,
    Nat.mul_add_mod, Nat.mod_eq_of_lt hj]

theorem foldl_buf_shape_ne {T α : Type _} (R0 C0 : Nat) (F : Mat T → α → Mat T)
    (G : List T → α → List T)
    (hF : ∀ (c : Mat T) (x : α), c.rows = R0 → c.cols = C0 →
      F c x = { c with buf := some (G (c.buf.getD []) x) }) :
    ∀ (l : List α), l ≠ [] → ∀ (c : Mat T), c.rows = R0 → c.cols = C0 →
      l.foldl F c = { c with buf := some (l.foldl G (c.buf.getD [])) } := by
  intro l
  induction l with
  | nil => intro h; exact absurd rfl h
  | cons x xs ih =>
    intro _ c hr hc
    rw [List.foldl_cons, List.foldl_cons, hF c x hr hc]
    by_cases hxs : xs = []
    · subst hxs
      rfl
    · rw [ih hxs { c with buf := some (G (c.buf.getD []) x) } hr hc]
      rfl

theorem matFill_eq {T : Type} [Inhabited T] (w R C : Nat) (f : Nat → Nat → T)
    (b0 : List T) (hR : 0 < R) (hC : 0 < C) (hsz : R * C < 2 ^ w)
    (hb : b0.length = R * C) :
    (List.range R).foldl (fun c i =>
      (List.range C).foldl (fun c j => c.setEl w i j (f i j)) c)
      (⟨R, C, some b0⟩ : Mat T) = mkDense R C f := by
  have hsetEl : ∀ (c : Mat T) (i j : Nat) (v : T), c.cols = C →
      c.setEl w i j v
      = { c with buf := some ((c.buf.getD []).set (sz w (C * i + j)) v) } := by
    intro c i j v hc
    unfold Mat.setEl
    rw [hc]
  have hinner : ∀ (i : Nat) (c : Mat T), c.rows = R → c.cols = C →
      (List.range C).foldl (fun c j => c.setEl w i j (f i j)) c
      = { c with buf := some ((List.range C).foldl
          (fun b j => b.set (sz w (C * i + j)) (f i j)) (c.buf.getD [])) } := by
    intro i c hr hc
    exact foldl_buf_shape_ne R C _ _ (fun c j _ hc' => hsetEl c i j (f i j) hc')
      (List.range C) (by rw [Ne, List.range_eq_nil]; omega) c hr hc
  have houter := foldl_buf_shape_ne R C
    (fun c i => (List.range C).foldl (fun c j => c.setEl w i j (f i j)) c)
    (fun b i => (List.range C).foldl
      (fun b j => b.set (sz w (C * i + j)) (f i j)) b)
    (fun c i hr hc => hinner i c hr hc)
    (List.range R) (by rw [Ne, List.range_eq_nil]; omega)
    (⟨R, C, some b0⟩ : Mat T) rfl rfl
  rw [houter]
  have hszkill : (List.range R).foldl (fun b i => (List.range C).foldl
      (fun b j => b.set (sz w (C * i + j)) (f i j)) b)
      ((Option.some b0).getD []) = fillBuf R C f b0 := by
    unfold fillBuf
    apply List.foldl_ext
    intro b i hi
    apply List.foldl_ext
    intro b' j hj
    have hlt : sz w (C * i + j) = C * i + j := by
      have h1 : C * i + j < C * R :=
        mul_pos_bound (List.mem_range.mp hi) (List.mem_range.mp hj)
      have h2 : C * R = R * C := Nat.mul_comm C R
      exact Nat.mod_eq_of_lt (by omega)
    rw [hlt]
  rw [hszkill, fillBuf_eq_map f b0 hC hb]
  rfl

/-! ### Operation characterizations -/

theorem matrixUninit_ok {T : Type} [Inhabited T] (w rows cols : Nat)
    (hr : rows ≠ 0) (hc : cols ≠ 0) :
    (matrixUninit w rows cols : Except MatrixError (Mat T))
    = .ok ⟨rows, cols, some (List.replicate (sz w (rows * cols)) (default : T))⟩ := by
  unfold matrixUninit
  rw [if_neg (by omega)]

theorem matrixFilled_ok {T : Type} [Inhabited T] (w rows cols : Nat) (v : T)
    (hr : rows ≠ 0) (hc : cols ≠ 0) :
    matrixFilled w rows cols v
    = .ok ⟨rows, cols, some (List.replicate (sz w (rows * cols)) v)⟩ := by
  unfold matrixFilled
  rw [if_neg (by omega)]
  have h1 : (List.range (sz w (rows * cols))).foldl (fun b i => b.set i v)
      (List.replicate (sz w (rows * cols)) (default : T))
      = (List.range (sz w (rows * cols))).map (fun _ => v) :=
    flatRun_eq_map (fun _ => v) (sz w (rows * cols)) _ (List.length_replicate _ _)
  rw [h1, List.map_const', List.length_range]

theorem matrixFromElements_ok {T : Type} [Inhabited T] (w rows cols : Nat)
    (els : List T) (hr : rows ≠ 0) (hc : cols ≠ 0)
    (hlen : els.length = sz w (rows * cols)) :
    matrixFromElements w rows cols els = .ok ⟨rows, cols, some els⟩ := by
  unfold matrixFromElements
  rw [if_neg (by omega), if_neg (by omega)]
  have h1 : (List.range (sz w (rows * cols))).foldl
      (fun b i => b.set i (els.getD i default))
      (List.replicate (sz w (rows * cols)) (default : T))
      = (List.range (sz w (rows * cols))).map (fun i => els.getD i default) :=
    flatRun_eq_map _ (sz w (rows * cols)) _ (List.length_replicate _ _)
  rw [h1, map_getD_range els _ hlen]

theorem matAdd_ok {T : Type} [Inhabited T] [Add T] (w : Nat) (a b : Mat T)
    (hr : a.rows = b.rows) (hc : a.cols = b.cols) (h0r : 0 < a.rows)
    (h0c : 0 < a.cols) (hsz : a.rows * a.cols < 2 ^ w) :
    matAdd w a b
    = .ok (mkDense a.rows a.cols (fun i j => a.el w i j + b.el w i j)) := by
  unfold matAdd
  rw [if_neg (by omega), matrixUninit_ok w a.rows a.cols (by omega) (by omega)]
  simp only [Except.map]
  congr 1
  exact matFill_eq w a.rows a.cols _ _ h0r h0c hsz
    (by rw [List.length_replicate]; exact Nat.mod_eq_of_lt hsz)

theorem matSub_ok {T : Type} [Inhabited T] [Sub T] (w : Nat) (a b : Mat T)
    (hr : a.rows = b.rows) (hc : a.cols = b.cols) (h0r : 0 < a.rows)
    (h0c : 0 < a.cols) (hsz : a.rows * a.cols < 2 ^ w) :
    matSub w a b
    = .ok (mkDense a.rows a.cols (fun i j => a.el w i j - b.el w i j)) := by
  unfold matSub
  rw [if_neg (by omega), matrixUninit_ok w a.rows a.cols (by omega) (by omega)]
  simp only [Except.map]
  congr 1
  exact matFill_eq w a.rows a.cols _ _ h0r h0c hsz
    (by rw [List.length_replicate]; exact Nat.mod_eq_of_lt hsz)

theorem matNeg_ok {T : Type} [Inhabited T] [Neg T] (w : Nat) (m : Mat T)
    (h0r : 0 < m.rows) (h0c : 0 < m.cols) (hsz : m.rows * m.cols < 2 ^ w) :
    matNeg w m = .ok (mkDense m.rows m.cols (fun i j => -(m.el w i j))) := by
  unfold matNeg
  rw [matrixUninit_ok w m.rows m.cols (by omega) (by omega)]
  simp only [Except.map]
  congr 1
  exact matFill_eq w m.rows m.cols _ _ h0r h0c hsz
    (by rw [List.length_replicate]; exact Nat.mod_eq_of_lt hsz)

theorem matrixDiagonal_ok {T : Type} [Inhabited T] [Zero T] (w : Nat)
    (d : List T) (hd : d ≠ []) (hsz : d.length * d.length < 2 ^ w) :
    matrixDiagonal w d = .ok (mkDense d.length d.length
      (fun i j => if i = j then d.getD i default else 0)) := by
  have h0 : 0 < d.length := List.length_pos.mpr hd
  unfold matrixDiagonal
  rw [if_neg (by omega)]
  congr 1
  exact matFill_eq w d.length d.length _ _ h0 h0 hsz
    (by rw [List.length_replicate]; exact Nat.mod_eq_of_lt hsz)

theorem matMul_ok {T : Type} [Inhabited T] [Zero T] [Add T] [Mul T] (w : Nat)
    (a b : Mat T) (hab : a.cols = b.rows) (h0r : 0 < a.rows) (h0c : 0 < b.cols)
    (h0k : 0 < a.cols) (hsz : a.rows * b.cols < 2 ^ w) :
    matMul w a b = .ok (mkDense a.rows b.cols (fun i j =>
      (List.range a.cols).foldl (fun acc k => acc + a.el w i k * b.el w k j) 0)) := by
  unfold matMul
  rw [if_neg (by simp [hab]), matrixUninit_ok w a.rows b.cols (by omega) (by omega)]
  simp only [Except.map]
  congr 1
  have hsetEl : ∀ (c : Mat T) (i j : Nat) (v : T), c.cols = b.cols →
      c.setEl w i j v
      = { c with buf := some ((c.buf.getD []).set (sz w (b.cols * i + j)) v) } := by
    intro c i j v hc
    unfold Mat.setEl
    rw [hc]
  have hel : ∀ (c : Mat T) (i j : Nat), c.cols = b.cols →
      c.el w i j = (c.buf.getD []).getD (sz w (b.cols * i + j)) default := by
    intro c i j hc
    unfold Mat.el
    rw [hc]
  have hcell : ∀ (i j : Nat) (c : Mat T), c.rows = a.rows → c.cols = b.cols →
      (List.range a.cols).foldl (fun c k =>
        c.setEl w i j (c.el w i j + a.el w i k * b.el w k j)) (c.setEl w i j 0)
      = { c with buf := some ((List.range a.cols).foldl
          (fun bb k => bb.set (sz w (b.cols * i + j))
            (bb.getD (sz w (b.cols * i + j)) default + a.el w i k * b.el w k j))
          ((c.buf.getD []).set (sz w (b.cols * i + j)) 0)) } := by
    intro i j c hr hc
    rw [hsetEl c i j 0 hc]
    exact foldl_buf_shape_ne a.rows b.cols _ _
      (fun c' k hr' hc' => by rw [hel c' i j hc', hsetEl c' i j _ hc'])
      (List.range a.cols) (by rw [Ne, List.range_eq_nil]; omega)
      { c with buf := some ((c.buf.getD []).set (sz w (b.cols * i + j)) 0) } hr hc
  have hmid : ∀ (c : Mat T) (i : Nat), c.rows = a.rows → c.cols = b.cols →
      (List.range b.cols).foldl (fun c j =>
        (List.range a.cols).foldl (fun c k =>
          c.setEl w i j (c.el w i j + a.el w i k * b.el w k j))
          (c.setEl w i j 0)) c
      = { c with buf := some ((List.range b.cols).foldl (fun bb j =>
          (List.range a.cols).foldl (fun bb k =>
            bb.set (sz w (b.cols * i + j))
              (bb.getD (sz w (b.cols * i + j)) default + a.el w i k * b.el w k j))
            (bb.set (sz w (b.cols * i + j)) 0)) (c.buf.getD [])) } := by
    intro c i hr hc
    exact foldl_buf_shape_ne a.rows b.cols _ _
      (fun c' j hr' hc' => hcell i j c' hr' hc')
      (List.range b.cols) (by rw [Ne, List.range_eq_nil]; omega) c hr hc
  have houter := foldl_buf_shape_ne a.rows b.cols
    (fun c i => (List.range b.cols).foldl (fun c j =>
      (List.range a.cols).foldl (fun c k =>
        c.setEl w i j (c.el w i j + a.el w i k * b.el w k j))
        (c.setEl w i j 0)) c)
    (fun bb i => (List.range b.cols).foldl (fun bb j =>
      (List.range a.cols).foldl (fun bb k =>
        bb.set (sz w (b.cols * i + j))
          (bb.getD (sz w (b.cols * i + j)) default + a.el w i k * b.el w k j))
        (bb.set (sz w (b.cols * i + j)) 0)) bb)
    (fun c i hr hc => hmid c i hr hc)
    (List.range a.rows) (by rw [Ne, List.range_eq_nil]; omega)
    (⟨a.rows, b.cols, some (List.replicate (sz w (a.rows * b.cols))
      (default : T))⟩ : Mat T) rfl rfl
  rw [show ((⟨a.rows, b.cols, some (List.replicate (sz w (a.rows * b.cols))
      (default : T))⟩ : Mat T).buf.getD [])
    = List.replicate (sz w (a.rows * b.cols)) (default : T) from rfl] at houter
  rw [houter]
  have hb0 : (List.replicate (sz w (a.rows * b.cols)) (default : T)).length
      = a.rows * b.cols := by
    rw [List.length_replicate]
    exact Nat.mod_eq_of_lt hsz
  have hbuf : (List.range a.rows).foldl (fun bb i =>
      (List.range b.cols).foldl (fun bb j =>
        (List.range a.cols).foldl (fun bb k =>
          bb.set (sz w (b.cols * i + j))
            (bb.getD (sz w (b.cols * i + j)) default + a.el w i k * b.el w k j))
          (bb.set (sz w (b.cols * i + j)) 0)) bb)
      (List.replicate (sz w (a.rows * b.cols)) (default : T))
      = fillBuf a.rows b.cols (fun i j =>
          (List.range a.cols).foldl (fun acc k => acc + a.el w i k * b.el w k j) 0)
        (List.replicate (sz w (a.rows * b.cols)) (default : T)) := by
    have hrow : ∀ (bb : List T) (i : Nat), i ∈ List.range a.rows →
        bb.length = a.rows * b.cols →
        (List.range b.cols).foldl (fun bb j =>
          (List.range a.cols).foldl (fun bb k =>
            bb.set (sz w (b.cols * i + j))
              (bb.getD (sz w (b.cols * i + j)) default + a.el w i k * b.el w k j))
            (bb.set (sz w (b.cols * i + j)) 0)) bb
        = (List.range b.cols).foldl (fun bb j => bb.set (b.cols * i + j)
            ((List.range a.cols).foldl
              (fun acc k => acc + a.el w i k * b.el w k j) 0)) bb := by
      intro bb i hi hP
      have hiR : i < a.rows := List.mem_range.mp hi
      apply foldl_ext_inv (fun bb => bb.length = a.rows * b.cols) _ _
        (List.range b.cols) ?heq ?hpres bb hP
      case heq =>
        intro bb' j hj hP'
        have hjC : j < b.cols := List.mem_range.mp hj
        have hq : b.cols * i + j < a.rows * b.cols := by
          have h1 := mul_pos_bound hiR hjC
          have h2 : b.cols * a.rows = a.rows * b.cols := Nat.mul_comm _ _
          omega
        have hqw : sz w (b.cols * i + j) = b.cols * i + j :=
          Nat.mod_eq_of_lt (by omega)
        rw [hqw]
        exact setAccum (b.cols * i + j) (fun k => a.el w i k * b.el w k j) 0
          a.cols bb' (by omega)
      case hpres =>
        intro bb' j hj hP'
        have hjC : j < b.cols := List.mem_range.mp hj
        have hq : b.cols * i + j < a.rows * b.cols := by
          have h1 := mul_pos_bound hiR hjC
          have h2 : b.cols * a.rows = a.rows * b.cols := Nat.mul_comm _ _
          omega
        have hqw : sz w (b.cols * i + j) = b.cols * i + j :=
          Nat.mod_eq_of_lt (by omega)
        rw [hqw, setAccum (b.cols * i + j) (fun k => a.el w i k * b.el w k j) 0
          a.cols bb' (by omega), List.length_set]
        exact hP'
    apply foldl_ext_inv (fun bb => bb.length = a.rows * b.cols) _ _
      (List.range a.rows) hrow ?hpres2
      (List.replicate (sz w (a.rows * b.cols)) (default : T)) hb0
    case hpres2 =>
      intro bb i hi hP
      rw [hrow bb i hi hP]
      have : (List.range b.cols).foldl (fun bb j => bb.set (b.cols * i + j)
          ((List.range a.cols).foldl
            (fun acc k => acc + a.el w i k * b.el w k j) 0)) bb
          = setRun (b.cols * i) (fun j => (List.range a.cols).foldl
            (fun acc k => acc + a.el w i k * b.el w k j) 0) b.cols bb := rfl
      rw [this, setRun_length]
      exact hP
  rw [hbuf, fillBuf_eq_map _ _ h0c hb0]
  rfl

theorem at'_error_iff {T : Type} [Inhabited T] (w : Nat) (m : Mat T)
    (row col : Nat) :
    m.at' w row col = .error .index_out_of_range
    ↔ (m.rows ≤ row ∨ m.cols ≤ col) := by
  unfold Mat.at'
  by_cases h : m.rows ≤ row ∨ m.cols ≤ col
  · rw [if_pos h]
    simp [h]
  · rw [if_neg h]
    simp [h]

theorem at'_ok {T : Type} [Inhabited T] (w : Nat) (m : Mat T) {row col : Nat}
    (hr : row < m.rows) (hc : col < m.cols) :
    m.at' w row col = .ok (m.el w row col) := by
  unfold Mat.at'
  rw [if_neg (by omega)]

theorem el_eq_offset {T : Type} [Inhabited T] (w : Nat) (m : Mat T)
    {row col : Nat} (hr : row < m.rows) (hc : col < m.cols)
    (hsz : m.rows * m.cols ≤ 2 ^ w) :
    m.el w row col = (m.buf.getD []).getD (row * m.cols + col) default := by
  unfold Mat.el
  have h1 : m.cols * row + col < m.cols * m.rows := mul_pos_bound hr hc
  have h2 : m.cols * m.rows = m.rows * m.cols := Nat.mul_comm _ _
  have h3 : sz w (m.cols * row + col) = m.cols * row + col :=
    Nat.mod_eq_of_lt (by omega)
  rw [h3, Nat.mul_comm m.cols row]

theorem foldl_length_inv {T α : Type _} (f : List T → α → List T)
    (hf : ∀ (bb : List T) (x : α), (f bb x).length = bb.length) :
    ∀ (l : List α) (bb : List T), (l.foldl f bb).length = bb.length := by
  intro l
  induction l with
  | nil => intro bb; rfl
  | cons x xs ih => intro bb; rw [List.foldl_cons, ih, hf]

theorem matrixDiagonal_shape {T : Type} [Inhabited T] [Zero T] (w : Nat)
    (d : List T) (hd : d ≠ []) :
    ∃ m : Mat T, matrixDiagonal w d = .ok m ∧ m.rows = d.length
      ∧ m.cols = d.length ∧ m.buf.isSome = true
      ∧ (m.buf.getD []).length = sz w (d.length * d.length) := by
  have h0 : 0 < d.length := List.length_pos.mpr hd
  have hsetEl : ∀ (c : Mat T) (i j : Nat) (v : T), c.cols = d.length →
      c.setEl w i j v
      = { c with buf := some ((c.buf.getD []).set (sz w (d.length * i + j)) v) } := by
    intro c i j v hc
    unfold Mat.setEl
    rw [hc]
  have hinner : ∀ (i : Nat) (c : Mat T), c.rows = d.length → c.cols = d.length →
      (List.range d.length).foldl (fun c j =>
        c.setEl w i j (if i = j then d.getD i default else 0)) c
      = { c with buf := some ((List.range d.length).foldl
          (fun bb j => bb.set (sz w (d.length * i + j))
            (if i = j then d.getD i default else 0)) (c.buf.getD [])) } := by
    intro i c hr hc
    exact foldl_buf_shape_ne d.length d.length _ _
      (fun c j _ hc' => hsetEl c i j _ hc')
      (List.range d.length) (by rw [Ne, List.range_eq_nil]; omega) c hr hc
  have houter := foldl_buf_shape_ne d.length d.length
    (fun c i => (List.range d.length).foldl (fun c j =>
      c.setEl w i j (if i = j then d.getD i default else 0)) c)
    (fun bb i => (List.range d.length).foldl
      (fun bb j => bb.set (sz w (d.length * i + j))
        (if i = j then d.getD i default else 0)) bb)
    (fun c i hr hc => hinner i c hr hc)
    (List.range d.length) (by rw [Ne, List.range_eq_nil]; omega)
    (⟨d.length, d.length, some (List.replicate (sz w (d.length * d.length))
      (default : T))⟩ : Mat T) rfl rfl
  rw [show ((⟨d.length, d.length, some (List.replicate
      (sz w (d.length * d.length)) (default : T))⟩ : Mat T).buf.getD [])
    = List.replicate (sz w (d.length * d.length)) (default : T) from rfl] at houter
  have hm : matrixDiagonal w d
      = .ok (⟨d.length, d.length, some ((List.range d.length).foldl
          (fun bb i => (List.range d.length).foldl
            (fun bb j => bb.set (sz w (d.length * i + j))
              (if i = j then d.getD i default else 0)) bb)
          (List.replicate (sz w (d.length * d.length)) (default : T)))⟩ : Mat T) := by
    unfold matrixDiagonal
    rw [if_neg (by omega)]
    congr 1
  refine ⟨_, hm, rfl, rfl, rfl, ?_⟩
  rw [show ((⟨d.length, d.length, some ((List.range d.length).foldl
      (fun bb i => (List.range d.length).foldl
        (fun bb j => bb.set (sz w (d.length * i + j))
          (if i = j then d.getD i default else 0)) bb)
      (List.replicate (sz w (d.length * d.length)) (default : T)))⟩ : Mat T).buf.getD [])
    = (List.range d.length).foldl
        (fun bb i => (List.range d.length).foldl
          (fun bb j => bb.set (sz w (d.length * i + j))
            (if i = j then d.getD i default else 0)) bb)
        (List.replicate (sz w (d.length * d.length)) (default : T)) from rfl]
  rw [foldl_length_inv _ (fun bb i => foldl_length_inv _
    (fun bb j => List.length_set bb _ _) (List.range d.length) bb)
    (List.range d.length) _]
  exact List.length_replicate _ _

theorem setwL_eq_rightJustify : setwL = rightJustify := by
  funext width s
  unfold setwL rightJustify
  by_cases h : (s.length : Int) < width
  · rw [if_pos h]
  · rw [if_neg h]
    have h0 : (width - (s.length : Int)).toNat = 0 := by omega
    rw [h0]
    rfl

theorem foldl_append_eq {α β : Type _} (s : β → List α) :
    ∀ (l : List β) (init : List α),
      l.foldl (fun acc x => acc ++ s x) init = init ++ (l.map s).flatten := by
  intro l
  induction l with
  | nil => intro init; simp
  | cons x xs ih =>
    intro init
    rw [List.foldl_cons, ih, List.map_cons, List.flatten_cons, List.append_assoc]

theorem flatten_vs_sepBy :
    ∀ (rs : List (List Char)), rs ≠ [] →
      (rs.map (fun r => r ++ "\n".toList)).flatten
      = sepBy "\n".toList rs ++ "\n".toList := by
  intro rs
  induction rs with
  | nil => intro h; exact absurd rfl h
  | cons r rs ih =>
    intro _
    by_cases hrs : rs = []
    · subst hrs
      simp [sepBy]
    · rw [List.map_cons, List.flatten_cons, ih hrs]
      show r ++ "\n".toList ++ (sepBy "\n".toList rs ++ "\n".toList)
        = sepBy "\n".toList (r :: rs) ++ "\n".toList
      have hsep : sepBy "\n".toList (r :: rs) = r ++ "\n".toList ++ sepBy "\n".toList rs := by
        cases rs with
        | nil => exact absurd rfl hrs
        | cons a as => rfl
      rw [hsep, List.append_assoc, List.append_assoc, List.append_assoc]

theorem matrixPrint_rows {T : Type} [Inhabited T] (w : Nat) (width : Int)
    (rend : T → List Char) (m : Mat T) (h0 : 0 < m.rows) :
    matrixPrint w width rend m
    = sepBy "\n".toList ((List.range m.rows).map (specRow w width rend m))
      ++ "\n\n".toList := by
  unfold matrixPrint
  rw [if_neg (by omega)]
  have hrow : ∀ (acc : List Char) (i : Nat),
      ((List.range m.cols).foldl (fun acc j =>
        acc ++ setwL width (rend (m.el w i j)) ++ [' ']) (acc ++ "( ".toList))
      ++ ")\n".toList
      = acc ++ (specRow w width rend m i ++ "\n".toList) := by
    intro acc i
    have h1 : (List.range m.cols).foldl (fun acc j =>
        acc ++ setwL width (rend (m.el w i j)) ++ [' ']) (acc ++ "( ".toList)
        = (acc ++ "( ".toList)
          ++ ((List.range m.cols).map
            (fun j => setwL width (rend (m.el w i j)) ++ [' '])).flatten := by
      have h2 : (List.range m.cols).foldl (fun acc j =>
          acc ++ setwL width (rend (m.el w i j)) ++ [' ']) (acc ++ "( ".toList)
          = (List.range m.cols).foldl (fun acc j =>
            acc ++ (setwL width (rend (m.el w i j)) ++ [' '])) (acc ++ "( ".toList) := by
        apply List.foldl_ext
        intro acc' j _
        rw [List.append_assoc]
      rw [h2]
      exact foldl_append_eq _ (List.range m.cols) _
    rw [h1]
    unfold specRow
    rw [setwL_eq_rightJustify]
    simp only [List.append_assoc]
    rfl
  have houter : (List.range m.rows).foldl (fun acc i =>
      ((List.range m.cols).foldl (fun acc j =>
        acc ++ setwL width (rend (m.el w i j)) ++ [' ']) (acc ++ "( ".toList))
      ++ ")\n".toList) []
      = (List.range m.rows).foldl (fun acc i =>
        acc ++ (specRow w width rend m i ++ "\n".toList)) [] := by
    apply List.foldl_ext
    intro acc i _
    exact hrow acc i
  rw [houter, foldl_append_eq (fun i => specRow w width rend m i ++ "\n".toList)
    (List.range m.rows) []]
  rw [show (List.range m.rows).map (fun i => specRow w width rend m i ++ "\n".toList)
    = ((List.range m.rows).map (specRow w width rend m)).map
      (fun r => r ++ "\n".toList) from by rw [List.map_map]; rfl]
  rw [flatten_vs_sepBy _ (by
    intro hcontra
    have := congrArg List.length hcontra
    simp at this
    omega)]
  simp [List.append_assoc]

theorem mkDense_rows {T : Type} (R C : Nat) (f : Nat → Nat → T) :
    (mkDense R C f).rows = R := rfl

theorem mkDense_cols {T : Type} (R C : Nat) (f : Nat → Nat → T) :
    (mkDense R C f).cols = C := rfl

/-! ### Claim theorems -/

/-- C3: For every matrix m, move-construction (and move-assignment) from m
produces a matrix holding m's former rows, cols, and all of m's elements,
transfers buffer ownership (no copy), and leaves the source m with
rows = 0, cols = 0 and no buffer; destroying both the source and the
destination afterwards frees the buffer exactly once. -/
theorem c3_move_semantics :
    ∀ (T : Type) [Inhabited T] (w : Nat) (m t : Mat T), m.buf.isSome = true →
      ((matrixMoveCtor m).1.rows = m.rows
        ∧ (matrixMoveCtor m).1.cols = m.cols
        ∧ (matrixMoveCtor m).1.buf = m.buf
        ∧ (∀ i j : Nat, (matrixMoveCtor m).1.el w i j = m.el w i j)
        ∧ (matrixMoveCtor m).2.rows = 0
        ∧ (matrixMoveCtor m).2.cols = 0
        ∧ (matrixMoveCtor m).2.buf = none
        ∧ (matrixMoveCtor m).1.allocCount + (matrixMoveCtor m).2.allocCount = 1)
      ∧ ((matrixMoveAssign t m).1.rows = m.rows
        ∧ (matrixMoveAssign t m).1.cols = m.cols
        ∧ (matrixMoveAssign t m).1.buf = m.buf
        ∧ (∀ i j : Nat, (matrixMoveAssign t m).1.el w i j = m.el w i j)
        ∧ (matrixMoveAssign t m).2.rows = 0
        ∧ (matrixMoveAssign t m).2.cols = 0
        ∧ (matrixMoveAssign t m).2.buf = none
        ∧ (matrixMoveAssign t m).1.allocCount
          + (matrixMoveAssign t m).2.allocCount = 1) := by
  intro T _ w m t hm
  obtain ⟨l, hl⟩ := Option.isSome_iff_exists.mp hm
  refine ⟨⟨rfl, rfl, rfl, fun i j => rfl, rfl, rfl, rfl, ?_⟩,
    ⟨rfl, rfl, rfl, fun i j => rfl, rfl, rfl, rfl, ?_⟩⟩
  · simp [matrixMoveCtor, Mat.allocCount, hl]
  · simp [matrixMoveAssign, Mat.allocCount, hl]

theorem c3_move_semantics_witness :
    (matrixMoveCtor (⟨1, 1, some [(5 : Int)]⟩ : Mat Int)).1.buf = some [(5 : Int)]
    ∧ (matrixMoveCtor (⟨1, 1, some [(5 : Int)]⟩ : Mat Int)).2.rows = 0
    ∧ (matrixMoveCtor (⟨1, 1, some [(5 : Int)]⟩ : Mat Int)).2.cols = 0
    ∧ (matrixMoveCtor (⟨1, 1, some [(5 : Int)]⟩ : Mat Int)).2.buf = none
    ∧ (matrixMoveCtor (⟨1, 1, some [(5 : Int)]⟩ : Mat Int)).1.allocCount
      + (matrixMoveCtor (⟨1, 1, some [(5 : Int)]⟩ : Mat Int)).2.allocCount = 1
    ∧ (matrixMoveAssign (⟨1, 1, some [(7 : Int)]⟩ : Mat Int)
        (⟨1, 1, some [(5 : Int)]⟩ : Mat Int)).1.allocCount
      + (matrixMoveAssign (⟨1, 1, some [(7 : Int)]⟩ : Mat Int)
        (⟨1, 1, some [(5 : Int)]⟩ : Mat Int)).2.allocCount = 1 := by
  obtain ⟨⟨_, _, h3, _, h5, h6, h7, h8⟩, ⟨_, _, _, _, _, _, _, h8b⟩⟩ :=
    c3_move_semantics Int 64 ⟨1, 1, some [(5 : Int)]⟩ ⟨1, 1, some [(7 : Int)]⟩ rfl
  exact ⟨h3, h5, h6, h7, h8, h8b⟩

/-- C9: For matrices in the post-move empty state (rows = 0 and cols = 0),
the arithmetic operators raise ZeroSize from the construction of the
result matrix: negating an empty matrix, or adding or subtracting two
empty matrices (whose shapes are equal), throws zero_size rather than
succeeding or raising a shape-mismatch error. -/
theorem c9_empty_operand_zero_size :
    ∀ (T : Type) [Inhabited T] [Add T] [Sub T] [Neg T] (w : Nat) (m a b : Mat T),
      m.rows = 0 → m.cols = 0 → a.rows = 0 → a.cols = 0 → b.rows = 0 → b.cols = 0 →
      matNeg w m = .error .zero_size
      ∧ matAdd w a b = .error .zero_size
      ∧ matSub w a b = .error .zero_size := by
  intro T _ _ _ _ w m a b hm1 hm2 ha1 ha2 hb1 hb2
  refine ⟨?_, ?_, ?_⟩
  · unfold matNeg matrixUninit
    rw [if_pos (by omega)]
    rfl
  · unfold matAdd
    rw [if_neg (by omega)]
    unfold matrixUninit
    rw [if_pos (by omega)]
    rfl
  · unfold matSub
    rw [if_neg (by omega)]
    unfold matrixUninit
    rw [if_pos (by omega)]
    rfl

theorem c9_empty_operand_zero_size_witness :
    matNeg 64 (⟨0, 0, none⟩ : Mat Int) = .error .zero_size
    ∧ matAdd 64 (⟨0, 0, none⟩ : Mat Int) (⟨0, 0, none⟩ : Mat Int)
      = .error .zero_size
    ∧ matSub 64 (⟨0, 0, none⟩ : Mat Int) (⟨0, 0, none⟩ : Mat Int)
      = .error .zero_size :=
  c9_empty_operand_zero_size Int 64 ⟨0, 0, none⟩ ⟨0, 0, none⟩ ⟨0, 0, none⟩
    rfl rfl rfl rfl rfl rfl

/-- C10: For every rows > 0 and cols > 0, the constructors compute the
buffer length as rows*cols in unsigned size_t arithmetic, i.e. modulo 2^w
where w is the width of size_t; the zero-size check inspects rows and
cols individually and not their product, so when the product wraps around
(for example rows = cols = 2^(w/2)) no error is raised and the allocated
buffer holds rows*cols mod 2^w elements rather than the full logical
element count. -/
theorem c10_sizet_wraparound :
    ∀ (T : Type) [Inhabited T] (w rows cols : Nat) (v : T),
      0 < rows → 0 < cols →
      (∃ m : Mat T, (matrixUninit w rows cols : Except MatrixError (Mat T)) = .ok m
        ∧ (m.buf.getD []).length = rows * cols % 2 ^ w)
      ∧ (∃ m : Mat T, matrixFilled w rows cols v = .ok m
        ∧ (m.buf.getD []).length = rows * cols % 2 ^ w) := by
  intro T _ w rows cols v hr hc
  constructor
  · exact ⟨_, matrixUninit_ok w rows cols (by omega) (by omega),
      List.length_replicate _ _⟩
  · exact ⟨_, matrixFilled_ok w rows cols v (by omega) (by omega),
      List.length_replicate _ _⟩

theorem c10_sizet_wraparound_witness :
    (matrixUninit 64 (2 ^ 32) (2 ^ 32) : Except MatrixError (Mat Int)).map
      (fun m => (m.buf.getD []).length) = .ok (2 ^ 32 * 2 ^ 32 % 2 ^ 64)
    ∧ (2 ^ 32 * 2 ^ 32 % 2 ^ 64 : Nat) = 0
    ∧ (2 ^ 32 * 2 ^ 32 : Nat) ≠ 0 := by
  obtain ⟨⟨m, hm, hlen⟩, _⟩ :=
    c10_sizet_wraparound Int 64 (2 ^ 32) (2 ^ 32) 0 (by decide) (by decide)
  refine ⟨?_, by decide, by decide⟩
  rw [hm]
  simp only [Except.map]
  rw [hlen]

/-- C5: For all matrices a, b whose shapes differ (a.rows != b.rows or
a.cols != b.cols), both Add and Subtract raise IncompatibleSizesAdd,
while Multiply raises the distinct kind IncompatibleSizesMultiply exactly
when a.cols != b.rows; in particular adding a 2x2 and a 3x3 matrix raises
IncompatibleSizesAdd, and multiplying a 2x3 by a 2x2 matrix raises
IncompatibleSizesMultiply. -/
theorem c5_shape_mismatch_errors :
    (∀ (T : Type) [Inhabited T] [Add T] [Sub T] [Zero T] [Mul T]
      (w : Nat) (a b : Mat T),
      (a.rows ≠ b.rows ∨ a.cols ≠ b.cols →
        matAdd w a b = .error .incompatible_sizes_add
        ∧ matSub w a b = .error .incompatible_sizes_add)
      ∧ (matMul w a b = .error .incompatible_sizes_multiply ↔ a.cols ≠ b.rows))
    ∧ matAdd 64 (⟨2, 2, some [(1 : Int), 2, 3, 4]⟩ : Mat Int)
      ⟨3, 3, some [1, 2, 3, 4, 5, 6, 7, 8, 9]⟩ = .error .incompatible_sizes_add
    ∧ matMul 64 (⟨2, 3, some [(1 : Int), 2, 3, 4, 5, 6]⟩ : Mat Int)
      ⟨2, 2, some [1, 2, 3, 4]⟩ = .error .incompatible_sizes_multiply := by
  refine ⟨?_, rfl, rfl⟩
  intro T _ _ _ _ _ w a b
  constructor
  · intro hne
    constructor
    · unfold matAdd
      rw [if_pos hne]
    · unfold matSub
      rw [if_pos hne]
  · constructor
    · intro herr
      by_contra heq
      unfold matMul at herr
      rw [if_neg (by simp [heq])] at herr
      unfold matrixUninit at herr
      by_cases hz : a.rows = 0 ∨ b.cols = 0
      · rw [if_pos hz] at herr
        simp [Except.map] at herr
      · rw [if_neg hz] at herr
        simp [Except.map] at herr
    · intro hne
      unfold matMul
      rw [if_pos hne]

theorem c5_shape_mismatch_errors_witness :
    matAdd 64 (⟨2, 2, some [(1 : Int), 2, 3, 4]⟩ : Mat Int)
      (⟨2, 3, some [(1 : Int), 2, 3, 4, 5, 6]⟩ : Mat Int)
      = .error .incompatible_sizes_add
    ∧ matSub 64 (⟨2, 2, some [(1 : Int), 2, 3, 4]⟩ : Mat Int)
      (⟨2, 3, some [(1 : Int), 2, 3, 4, 5, 6]⟩ : Mat Int)
      = .error .incompatible_sizes_add
    ∧ matMul 64 (⟨2, 2, some [(1 : Int), 2, 3, 4]⟩ : Mat Int)
      (⟨3, 2, some [(1 : Int), 2, 3, 4, 5, 6]⟩ : Mat Int)
      = .error .incompatible_sizes_multiply := by
  have h := c5_shape_mismatch_errors.1 Int 64
    (⟨2, 2, some [(1 : Int), 2, 3, 4]⟩ : Mat Int)
    (⟨2, 3, some [(1 : Int), 2, 3, 4, 5, 6]⟩ : Mat Int)
  have h2 := c5_shape_mismatch_errors.1 Int 64
    (⟨2, 2, some [(1 : Int), 2, 3, 4]⟩ : Mat Int)
    (⟨3, 2, some [(1 : Int), 2, 3, 4, 5, 6]⟩ : Mat Int)
  obtain ⟨hadd, hsub⟩ := h.1 (by decide)
  exact ⟨hadd, hsub, h2.2.mpr (by decide)⟩

/-- C4: For every matrix with rows > 0 and cols > 0, checked access
at(row, col) raises IndexOutOfRange exactly when row >= rows or
col >= cols (so at(rows, 0), at(0, cols), and any larger index raise it),
and otherwise succeeds and returns the element stored at flattened offset
row*cols + col; in particular at(rows-1, cols-1) succeeds. -/
theorem c4_checked_access :
    ∀ (T : Type) [Inhabited T] (w : Nat) (m : Mat T),
      0 < m.rows → 0 < m.cols → m.rows * m.cols ≤ 2 ^ w →
      (∀ row col : Nat,
        m.at' w row col = .error .index_out_of_range
        ↔ (m.rows ≤ row ∨ m.cols ≤ col))
      ∧ (∀ row col : Nat, row < m.rows → col < m.cols →
          m.at' w row col
          = .ok ((m.buf.getD []).getD (row * m.cols + col) default))
      ∧ m.at' w m.rows 0 = .error .index_out_of_range
      ∧ m.at' w 0 m.cols = .error .index_out_of_range
      ∧ m.at' w (m.rows - 1) (m.cols - 1)
        = .ok (m.el w (m.rows - 1) (m.cols - 1)) := by
  intro T _ w m h0r h0c hsz
  refine ⟨fun row col => at'_error_iff w m row col, ?_, ?_, ?_, ?_⟩
  · intro row col hr hc
    rw [at'_ok w m hr hc, el_eq_offset w m hr hc hsz]
  · exact (at'_error_iff w m m.rows 0).mpr (Or.inl (Nat.le_refl _))
  · exact (at'_error_iff w m 0 m.cols).mpr (Or.inr (Nat.le_refl _))
  · exact at'_ok w m (by omega) (by omega)

theorem c4_checked_access_witness :
    (⟨2, 2, some [(1 : Int), 2, 3, 4]⟩ : Mat Int).at' 64 1 0 = .ok 3
    ∧ (⟨2, 2, some [(1 : Int), 2, 3, 4]⟩ : Mat Int).at' 64 2 0
      = .error .index_out_of_range
    ∧ (⟨2, 2, some [(1 : Int), 2, 3, 4]⟩ : Mat Int).at' 64 0 2
      = .error .index_out_of_range
    ∧ (⟨2, 2, some [(1 : Int), 2, 3, 4]⟩ : Mat Int).at' 64 1 1 = .ok 4 := by
  have h := c4_checked_access Int 64 ⟨2, 2, some [(1 : Int), 2, 3, 4]⟩
    (by decide) (by decide) (by decide)
  refine ⟨?_, h.2.2.1, h.2.2.2.1, ?_⟩
  · rw [h.2.1 1 0 (by decide) (by decide)]
    rfl
  · exact h.2.2.2.2

/-- C1: For every pair of matrices a, b with a.cols == b.rows, the product
a*b is a new matrix of shape a.rows x b.cols whose entry (i,j) equals the
sum over k of a(i,k)*b(k,j), with the accumulator initialized from the
integer 0 converted to T; in particular Matrix(2,2,{1,2,3,4}) *
Matrix(2,2,{5,6,7,8}) equals Matrix(2,2,{19,22,43,50}), and the same
operands added yield Matrix(2,2,{6,8,10,12}). -/
theorem c1_multiplication :
    (∀ (T : Type) [AddCommMonoid T] [Mul T] [Inhabited T] (w : Nat)
      (a b : Mat T), a.cols = b.rows → 0 < a.rows → 0 < b.cols → 0 < a.cols →
      a.rows * b.cols < 2 ^ w →
      ∃ c : Mat T, matMul w a b = .ok c ∧ c.rows = a.rows ∧ c.cols = b.cols
        ∧ ∀ i j : Nat, i < a.rows → j < b.cols →
          c.el w i j = ∑ k ∈ Finset.range a.cols, a.el w i k * b.el w k j)
    ∧ matrixFromElements 64 2 2 [(1 : Int), 2, 3, 4]
      = .ok (⟨2, 2, some [(1 : Int), 2, 3, 4]⟩ : Mat Int)
    ∧ matrixFromElements 64 2 2 [(5 : Int), 6, 7, 8]
      = .ok (⟨2, 2, some [(5 : Int), 6, 7, 8]⟩ : Mat Int)
    ∧ matMul 64 (⟨2, 2, some [(1 : Int), 2, 3, 4]⟩ : Mat Int)
      (⟨2, 2, some [(5 : Int), 6, 7, 8]⟩ : Mat Int)
      = .ok (⟨2, 2, some [(19 : Int), 22, 43, 50]⟩ : Mat Int)
    ∧ matAdd 64 (⟨2, 2, some [(1 : Int), 2, 3, 4]⟩ : Mat Int)
      (⟨2, 2, some [(5 : Int), 6, 7, 8]⟩ : Mat Int)
      = .ok (⟨2, 2, some [(6 : Int), 8, 10, 12]⟩ : Mat Int) := by
  refine ⟨?_, rfl, rfl, rfl, rfl⟩
  intro T _ _ _ w a b hab h0r h0c h0k hsz
  refine ⟨_, matMul_ok w a b hab h0r h0c h0k hsz, rfl, rfl, ?_⟩
  intro i j hi hj
  rw [mkDense_el w a.rows b.cols _ (Nat.le_of_lt hsz) hi hj]
  exact foldl_add_eq_sum _ a.cols

theorem c1_multiplication_witness :
    (matMul 64 (⟨2, 2, some [(1 : Int), 2, 3, 4]⟩ : Mat Int)
      (⟨2, 2, some [(5 : Int), 6, 7, 8]⟩ : Mat Int)).map (fun c => c.el 64 0 1)
    = .ok 22 := by
  obtain ⟨c, hc, _, _, hel⟩ := c1_multiplication.1 Int 64
    (⟨2, 2, some [(1 : Int), 2, 3, 4]⟩ : Mat Int)
    (⟨2, 2, some [(5 : Int), 6, 7, 8]⟩ : Mat Int)
    rfl (by decide) (by decide) (by decide) (by decide)
  rw [hc]
  simp only [Except.map]
  rw [hel 0 1 (by decide) (by decide)]
  congr 1

/-- C6: For every non-empty sequence s of length n, the diagonal
constructor yields an n x n matrix in which at(i,i) == s[i] for every i
and at(i,j) == 0 (T's additive identity, obtained by assigning the
integer literal 0) for every i != j; for the empty sequence (n == 0) it
raises ZeroSize. -/
theorem c6_diagonal_ctor :
    (∀ (T : Type) [Inhabited T] [Zero T] (w : Nat) (d : List T),
      d ≠ [] → d.length * d.length < 2 ^ w →
      ∃ m : Mat T, matrixDiagonal w d = .ok m ∧ m.rows = d.length
        ∧ m.cols = d.length
        ∧ (∀ i : Nat, i < d.length → m.at' w i i = .ok (d.getD i default))
        ∧ (∀ i j : Nat, i < d.length → j < d.length → i ≠ j →
            m.at' w i j = .ok 0))
    ∧ (∀ (T : Type) [Inhabited T] [Zero T] (w : Nat),
        matrixDiagonal w ([] : List T) = .error .zero_size) := by
  constructor
  · intro T _ _ w d hd hsz
    refine ⟨_, matrixDiagonal_ok w d hd hsz, rfl, rfl, ?_, ?_⟩
    · intro i hi
      rw [at'_ok w _ hi hi,
        mkDense_el w d.length d.length _ (Nat.le_of_lt hsz) hi hi, if_pos rfl]
    · intro i j hi hj hne
      rw [at'_ok w _ hi hj,
        mkDense_el w d.length d.length _ (Nat.le_of_lt hsz) hi hj, if_neg hne]
  · intro T _ _ w
    rfl

theorem c6_diagonal_ctor_witness :
    (matrixDiagonal 64 [(5 : Int), 7]).map (fun m => m.at' 64 0 1)
      = .ok (.ok 0)
    ∧ (matrixDiagonal 64 [(5 : Int), 7]).map (fun m => m.at' 64 1 1)
      = .ok (.ok 7) := by
  obtain ⟨m, hm, _, _, hdiag, hoff⟩ := c6_diagonal_ctor.1 Int 64 [(5 : Int), 7]
    (by decide) (by decide)
  constructor
  · rw [hm]
    simp only [Except.map]
    rw [hoff 0 1 (by decide) (by decide) (by decide)]
  · rw [hm]
    simp only [Except.map]
    rw [hdiag 1 (by decide)]
    rfl

/-- C7: For all matrices a and b of equal shape, (a+b)+(-b) equals a
elementwise, where + is matrix addition and unary - is elementwise
negation. -/
theorem c7_add_neg_cancel :
    ∀ (T : Type) [AddGroup T] [Inhabited T] (w : Nat) (a b : Mat T),
      a.rows = b.rows → a.cols = b.cols → 0 < a.rows → 0 < a.cols →
      a.rows * a.cols < 2 ^ w →
      ∃ s nb r : Mat T, matAdd w a b = .ok s ∧ matNeg w b = .ok nb
        ∧ matAdd w s nb = .ok r ∧ r.rows = a.rows ∧ r.cols = a.cols
        ∧ ∀ i j : Nat, i < a.rows → j < a.cols → r.el w i j = a.el w i j := by
  intro T _ _ w a b hr hc h0r h0c hsz
  have hs := matAdd_ok w a b hr hc h0r h0c hsz
  have hnb := matNeg_ok w b (by omega) (by omega)
    (by rw [← hr, ← hc]; exact hsz)
  have hfinal := matAdd_ok w (mkDense a.rows a.cols
      (fun i j => a.el w i j + b.el w i j))
    (mkDense b.rows b.cols (fun i j => -(b.el w i j))) hr hc h0r h0c hsz
  simp only [mkDense_rows, mkDense_cols] at hfinal
  refine ⟨_, _, _, hs, hnb, hfinal, rfl, rfl, ?_⟩
  intro i j hi hj
  rw [mkDense_el w a.rows a.cols _ (Nat.le_of_lt hsz) hi hj,
    mkDense_el w a.rows a.cols _ (Nat.le_of_lt hsz) hi hj,
    mkDense_el w b.rows b.cols _
      (by rw [← hr, ← hc]; exact Nat.le_of_lt hsz)
      (by omega) (by omega)]
  exact add_neg_cancel_right _ _

theorem c7_add_neg_cancel_witness :
    ((matAdd 64 (⟨1, 1, some [(3 : Int)]⟩ : Mat Int)
      (⟨1, 1, some [(4 : Int)]⟩ : Mat Int)).bind (fun s =>
        (matNeg 64 (⟨1, 1, some [(4 : Int)]⟩ : Mat Int)).bind (fun nb =>
          matAdd 64 s nb))).map (fun r => r.el 64 0 0) = .ok 3 := by
  obtain ⟨s, nb, r, h1, h2, h3, _, _, hel⟩ := c7_add_neg_cancel Int 64
    ⟨1, 1, some [(3 : Int)]⟩ ⟨1, 1, some [(4 : Int)]⟩ rfl rfl
    (by decide) (by decide) (by decide)
  rw [h1]
  simp only [Except.bind]
  rw [h2]
  simp only [Except.bind]
  rw [h3]
  simp only [Except.map]
  rw [hel 0 0 (by decide) (by decide)]
  rfl

/-- C8: Formatting a matrix with rows > 0 renders each row enclosed in
parentheses with every element right-justified to the current
output-width setting (default 5, shared across all matrices of the same
element type T), rows separated by newlines, followed by one trailing
blank line after the full matrix; a matrix with zero rows and zero
columns (the post-move state) renders as a literal empty-parentheses
marker. -/
theorem c8_formatting :
    output_width_default = 5
    ∧ setwL = rightJustify
    ∧ (∀ (T : Type) [Inhabited T] (w : Nat) (width : Int)
        (rend : T → List Char) (m : Mat T), 0 < m.rows →
        matrixPrint w width rend m
        = sepBy "\n".toList ((List.range m.rows).map (specRow w width rend m))
          ++ "\n\n".toList)
    ∧ (∀ (T : Type) [Inhabited T] (w : Nat) (width : Int)
        (rend : T → List Char) (m : Mat T), m.rows = 0 → m.cols = 0 →
        matrixPrint w width rend m = "()\n".toList) := by
  refine ⟨rfl, setwL_eq_rightJustify, ?_, ?_⟩
  · intro T _ w width rend m h0
    exact matrixPrint_rows w width rend m h0
  · intro T _ w width rend m h1 h2
    unfold matrixPrint
    rw [if_pos ⟨h1, h2⟩]

theorem c8_formatting_witness :
    matrixPrint 64 5 (fun x : Int => (toString x).toList)
      (⟨0, 0, none⟩ : Mat Int) = "()\n".toList :=
  c8_formatting.2.2.2 Int 64 5 (fun x : Int => (toString x).toList)
    ⟨0, 0, none⟩ rfl rfl

/-- C2 counterexample: on a 64-bit size_t, the uninitialized constructor
called with rows = cols = 2^32 succeeds (no error is raised) yet the
allocated buffer is empty, so its length differs from rows*cols = 2^64:
the claimed invariant "buffer length exactly rows*cols" fails. -/
theorem c2_ctor_atomicity_counterexample :
    (matrixUninit 64 (2 ^ 32) (2 ^ 32) : Except MatrixError (Mat Int))
      = .ok ⟨2 ^ 32, 2 ^ 32, some []⟩
    ∧ ([] : List Int).length ≠ 2 ^ 32 * 2 ^ 32 := by
  constructor
  · rfl
  · decide

/-- C2 (amended): Every constructor either fully establishes the state
rows>0, cols>0 and buffer length exactly rows*cols computed in size_t
arithmetic (that is, rows*cols mod 2^w, which equals rows*cols whenever
the product does not overflow size_t), or raises an error (ZeroSize, or
SizeMismatch for the flattened form when the sequence length differs
from rows*cols mod 2^w) before any buffer is allocated; in the failing
cases no allocation occurs and no partially constructed state escapes. -/
theorem c2_ctor_atomicity_amended :
    ∀ (T : Type) [Inhabited T] [Zero T] (w rows cols : Nat) (v : T)
      (els d : List T),
      ((rows = 0 ∨ cols = 0) →
        (matrixUninit w rows cols : Except MatrixError (Mat T))
          = .error .zero_size
        ∧ matrixFilled w rows cols v = .error .zero_size
        ∧ matrixFromElements w rows cols els = .error .zero_size)
      ∧ matrixDiagonal w ([] : List T) = .error .zero_size
      ∧ (rows ≠ 0 → cols ≠ 0 → els.length ≠ rows * cols % 2 ^ w →
          matrixFromElements w rows cols els = .error .initializer_wrong_size)
      ∧ (rows ≠ 0 → cols ≠ 0 →
          ∃ m : Mat T,
            (matrixUninit w rows cols : Except MatrixError (Mat T)) = .ok m
            ∧ 0 < m.rows ∧ 0 < m.cols ∧ m.rows = rows ∧ m.cols = cols
            ∧ m.buf.isSome = true
            ∧ (m.buf.getD []).length = rows * cols % 2 ^ w)
      ∧ (rows ≠ 0 → cols ≠ 0 →
          ∃ m : Mat T, matrixFilled w rows cols v = .ok m
            ∧ 0 < m.rows ∧ 0 < m.cols ∧ m.rows = rows ∧ m.cols = cols
            ∧ m.buf.isSome = true
            ∧ (m.buf.getD []).length = rows * cols % 2 ^ w)
      ∧ (rows ≠ 0 → cols ≠ 0 → els.length = rows * cols % 2 ^ w →
          ∃ m : Mat T, matrixFromElements w rows cols els = .ok m
            ∧ 0 < m.rows ∧ 0 < m.cols ∧ m.rows = rows ∧ m.cols = cols
            ∧ m.buf.isSome = true
            ∧ (m.buf.getD []).length = rows * cols % 2 ^ w)
      ∧ (d ≠ [] →
          ∃ m : Mat T, matrixDiagonal w d = .ok m
            ∧ 0 < m.rows ∧ 0 < m.cols ∧ m.rows = d.length ∧ m.cols = d.length
            ∧ m.buf.isSome = true
            ∧ (m.buf.getD []).length = d.length * d.length % 2 ^ w) := by
  intro T _ _ w rows cols v els d
  refine ⟨?_, rfl, ?_, ?_, ?_, ?_, ?_⟩
  · intro h
    refine ⟨?_, ?_, ?_⟩
    · unfold matrixUninit
      rw [if_pos h]
    · unfold matrixFilled
      rw [if_pos h]
    · unfold matrixFromElements
      rw [if_pos h]
  · intro hr hc hne
    unfold matrixFromElements sz
    rw [if_neg (by omega), if_pos hne]
  · intro hr hc
    exact ⟨_, matrixUninit_ok w rows cols hr hc, show 0 < rows by omega,
      show 0 < cols by omega, rfl, rfl, rfl, List.length_replicate _ _⟩
  · intro hr hc
    exact ⟨_, matrixFilled_ok w rows cols v hr hc, show 0 < rows by omega,
      show 0 < cols by omega, rfl, rfl, rfl, List.length_replicate _ _⟩
  · intro hr hc hlen
    exact ⟨_, matrixFromElements_ok w rows cols els hr hc hlen,
      show 0 < rows by omega, show 0 < cols by omega, rfl, rfl, rfl, hlen⟩
  · intro hd
    obtain ⟨m, hm, hrow, hcol, hsome, hlen⟩ := matrixDiagonal_shape w d hd
    have h0 : 0 < d.length := List.length_pos.mpr hd
    exact ⟨m, hm, by omega, by omega, hrow, hcol, hsome, hlen⟩

theorem c2_ctor_atomicity_amended_witness :
    matrixFromElements 64 2 3 [(1 : Int), 2, 3, 4, 5]
      = .error .initializer_wrong_size
    ∧ (matrixUninit 64 0 3 : Except MatrixError (Mat Int)) = .error .zero_size
    ∧ (matrixFilled 64 2 3 (9 : Int)).map (fun m => (m.buf.getD []).length)
      = .ok (2 * 3 % 2 ^ 64) := by
  have h := c2_ctor_atomicity_amended Int 64 2 3 (9 : Int)
    [(1 : Int), 2, 3, 4, 5] []
  have h0 := c2_ctor_atomicity_amended Int 64 0 3 (9 : Int)
    [(1 : Int), 2, 3, 4, 5] []
  refine ⟨h.2.2.1 (by decide) (by decide) (by decide),
    (h0.1 (Or.inl rfl)).1, ?_⟩
  obtain ⟨m, hm, _, _, _, _, _, hlen⟩ := h.2.2.2.2.1 (by decide) (by decide)
  rw [hm]
  simp only [Except.map]
  rw [hlen]
